import Mathlib

/-!
Verification of the VRPTW construction heuristics (GA-VRPTW repository).

The embedding models customer records, the time-window feasibility oracle
(`begin_time`, `check_time_windows` in `vrptw_functions.py` /
`solomon_insertion.py`), the Solomon insertion cost terms (`c11`, `c12`),
the single-tour construction engine (`insertion_heuristic_st` in `sweep.py`),
the plain insertion heuristic (`insertion_heuristic` in
`solomon_insertion.py`), the savings-heuristic time-window check
(`savings_heuristic.py`), the sweep front-end's phase-2 loop (`sweep.py`)
and the clustering front-end's route-building loop (`kmeans_vrptw.py`).

Numeric quantities (coordinates, times, demands, cost parameters) live in
an arbitrary linearly ordered commutative ring `α` — the Python code only
ever adds, subtracts, multiplies, maximizes and compares them, so this
captures real-, rational- and integer-valued data alike; witnesses
instantiate `α := ℤ`.  The distance and travel-time matrices are passed in
as functions, exactly as the Python code receives them as arguments.
Python code that raises an exception (indexing an empty list, `max()` /
`min()` of an empty sequence, `list.index` of an absent value, referencing
an undefined name) is modelled by `Option`: `none` is an abnormal
termination.
-/

/-- A customer record as parsed from a Solomon instance (`parsing.py`):
coordinates, demand, ready time, due date, service time.  Index 0 is the
depot. -/
structure Customer (α : Type) where
  x_coord : α
  y_coord : α
  demand : α
  ready_time : α
  due_date : α
  service_time : α

/-- Problem data: planned vehicle count and vehicle capacity. -/
structure Problem (α : Type) where
  vehicle_number : Nat
  capacity : α

variable {α : Type} [LinearOrderedCommRing α]

/-- Loop of `begin_time` (`vrptw_functions.py` lines 24-41), carrying the
previous node (`prev`, the depot `0` before the first iteration) and the
accumulated clock.  The final case models the `for ... else` branch that
adds the travel time from the last visited node back to the depot. -/
def beginTimeAux (j : Int) (t : Nat → Nat → α) (cust : Nat → Customer α) :
    List Nat → Nat → α → α
  | [], prev, time => time + t prev 0
  | c :: rest, prev, time =>
    let s := max (cust c).ready_time (time + t prev c)
    if (c : Int) = j then s
    else beginTimeAux j t cust rest c (s + (cust c).service_time)

/-- `begin_time(j, route, t, customers)` (`vrptw_functions.py` lines 20-41):
the clock time at which `j` begins service, or the whole route time when `j`
never occurs.  On an empty route the Python code indexes
`route[len(route) - 1]` on an empty list and raises, hence `none`. -/
def begin_time (j : Int) (route : List Nat) (t : Nat → Nat → α)
    (cust : Nat → Customer α) : Option α :=
  match route with
  | [] => none
  | _ :: _ => some (beginTimeAux j t cust route 0 (cust 0).ready_time)

/-- Loop of `check_time_windows` (`vrptw_functions.py` lines 47-68).  The
final case models the post-loop depot due-date check `time += t[route[i]][0]`
where `i` is the index of the last visited customer (= `prev`). -/
def checkTWAux (t : Nat → Nat → α) (cust : Nat → Customer α) :
    List Nat → Nat → α → Bool
  | [], prev, time => decide (time + t prev 0 ≤ (cust 0).due_date)
  | c :: rest, prev, time =>
    let s := max (cust c).ready_time (time + t prev c)
    if (cust c).due_date < s then false
    else checkTWAux t cust rest c (s + (cust c).service_time)

/-- `check_time_windows(route, t, customers)` (`vrptw_functions.py` lines
43-68, identical to `solomon_insertion.py` lines 45-70).  On an empty route
the Python code reads the loop variable `i` after a zero-iteration loop and
raises `NameError`, hence `none`. -/
def check_time_windows (route : List Nat) (t : Nat → Nat → α)
    (cust : Nat → Customer α) : Option Bool :=
  match route with
  | [] => none
  | _ :: _ => some (checkTWAux t cust route 0 (cust 0).ready_time)

/-- Reference simulation (spec §4.2): the list of service-start times of the
customers of a route, position by position, starting the clock at `time`
after leaving node `prev`: travel from the previous node, wait up to the
ready time, then serve. -/
def serviceStartsAux (t : Nat → Nat → α) (cust : Nat → Customer α) :
    List Nat → Nat → α → List α
  | [], _, _ => []
  | c :: rest, prev, time =>
    let s := max (cust c).ready_time (time + t prev c)
    s :: serviceStartsAux t cust rest c (s + (cust c).service_time)

/-- Reference simulation (spec §4.2): the clock time of the arrival back at
the depot after serving every customer of the route. -/
def depotReturnAux (t : Nat → Nat → α) (cust : Nat → Customer α) :
    List Nat → Nat → α → α
  | [], prev, time => time + t prev 0
  | c :: rest, prev, time =>
    let s := max (cust c).ready_time (time + t prev c)
    depotReturnAux t cust rest c (s + (cust c).service_time)

/-- Service-start times of a route simulated from the depot at its ready
time. -/
def serviceStarts (route : List Nat) (t : Nat → Nat → α)
    (cust : Nat → Customer α) : List α :=
  serviceStartsAux t cust route 0 (cust 0).ready_time

/-- Final depot-arrival clock of a route simulated from the depot at its
ready time (the spec's total route duration, depot ready time included). -/
def depotReturn (route : List Nat) (t : Nat → Nat → α)
    (cust : Nat → Customer α) : α :=
  depotReturnAux t cust route 0 (cust 0).ready_time

/-- Loop of the savings heuristic's `check_time_windows`
(`savings_heuristic.py` lines 21-45): same simulation, but additionally
rejects the route when the waiting time at some customer exceeds
`maximum_wait`. -/
def checkTWSavAux (t : Nat → Nat → α) (cust : Nat → Customer α)
    (maximum_wait : α) : List Nat → Nat → α → Bool
  | [], prev, time => decide (time + t prev 0 ≤ (cust 0).due_date)
  | c :: rest, prev, time =>
    let previous_time := time + t prev c
    let s := max (cust c).ready_time previous_time
    if maximum_wait < s - previous_time then false
    else if (cust c).due_date < s then false
    else checkTWSavAux t cust maximum_wait rest c (s + (cust c).service_time)

/-- `check_time_windows(route, t, customers, maximum_wait)` of
`savings_heuristic.py` (lines 17-45).  Like the core oracle it raises on an
empty route (unset loop variable), hence `none`. -/
def check_time_windows_savings (route : List Nat) (t : Nat → Nat → α)
    (cust : Nat → Customer α) (maximum_wait : α) : Option Bool :=
  match route with
  | [] => none
  | _ :: _ => some (checkTWSavAux t cust maximum_wait route 0 (cust 0).ready_time)

/-- `c11(i, u, j, d, mu)` (`solomon_insertion.py` lines 72-73). -/
def c11 (i u j : Nat) (d : Nat → Nat → α) (mu : α) : α :=
  d i u + d u j - mu * d i j

/-- `c12(u, j, route, t, customers)` (`solomon_insertion.py` lines 75-83):
`u` is appended after the route when `j = 0`, otherwise `u` is inserted
before the first occurrence of `j` (`route.index(j)` raises when `j` is
absent, hence `none`); the result is the difference of the two `begin_time`
queries, each of which may itself fail on an empty route. -/
def c12 (u j : Nat) (route : List Nat) (t : Nat → Nat → α)
    (cust : Nat → Customer α) : Option α :=
  if j = 0 then
    match begin_time (j : Int) (route ++ [u]) t cust,
        begin_time (j : Int) route t cust with
    | some a, some b => some (a - b)
    | _, _ => none
  else if j ∈ route then
    match begin_time (j : Int) (route.insertIdx (route.indexOf j) u) t cust,
        begin_time (j : Int) route t cust with
    | some a, some b => some (a - b)
    | _, _ => none
  else none

/-- Concrete travel-time / distance matrix used by witnesses: unit distance
between any two distinct nodes. -/
def tEx : Nat → Nat → ℤ := fun i j => if i = j then 0 else 1

/-- Concrete customers used by witnesses: depot `0` with window `[0, 1000]`,
customers `1` and `2` with demand `10`, window `[0, 1000]`, no service
time. -/
def custEx : Nat → Customer ℤ := fun i =>
  if i = 1 then ⟨0, 10, 10, 0, 1000, 0⟩
  else if i = 2 then ⟨10, 0, 10, 0, 1000, 0⟩
  else ⟨0, 0, 0, 0, 1000, 0⟩

/-- Concrete customers for the waiting-time counterexample: customer `1`
becomes ready only at time `5`. -/
def custWait : Nat → Customer ℤ := fun i =>
  if i = 1 then ⟨0, 10, 10, 5, 1000, 0⟩ else ⟨0, 0, 0, 0, 1000, 0⟩

/-- Concrete problem data used by witnesses: `5` vehicles of capacity
`10`. -/
def probEx : Problem ℤ := ⟨5, 10⟩

lemma checkTWSavAux_implies (t : Nat → Nat → α) (cust : Nat → Customer α)
    (w : α) : ∀ (route : List Nat) (prev : Nat) (time : α),
      checkTWSavAux t cust w route prev time = true →
        checkTWAux t cust route prev time = true
  | [], _, _, h => h
  | c :: rest, prev, time, h => by
    simp only [checkTWSavAux] at h
    split at h
    · exact absurd h (by simp)
    · split at h
      · exact absurd h (by simp)
      · simp only [checkTWAux]
        rw [if_neg (by assumption)]
        exact checkTWSavAux_implies t cust w rest c _ h

/-- Counterexample to claim C8: on the one-customer route `[1]` with ready
time `5`, unit travel times and `maximum_wait = 0`, the savings heuristic's
check rejects (the vehicle would wait `4` time units) while the core oracle
accepts, so the two checks do not decide the same set of routes. -/
theorem savings_check_not_equiv_core :
    ¬(check_time_windows_savings [1] tEx custWait 0 = some true ↔
        check_time_windows [1] tEx custWait = some true) := by
  decide

/-- Claim C8 (amended): the savings heuristic's check is at least as strict
as the core oracle — whenever it accepts a route, the core
`check_time_windows` accepts it as well. -/
theorem savings_check_implies_core (route : List Nat) (t : Nat → Nat → α)
    (cust : Nat → Customer α) (w : α)
    (h : check_time_windows_savings route t cust w = some true) :
    check_time_windows route t cust = some true := by
  match route with
  | [] => exact absurd h (by simp [check_time_windows_savings])
  | a :: l =>
    have hs : checkTWSavAux t cust w (a :: l) 0 (cust 0).ready_time = true :=
      Option.some_inj.mp h
    show some _ = some true
    rw [Option.some_inj]
    exact checkTWSavAux_implies t cust w (a :: l) 0 _ hs

/-- Witness for C8 (amended): a route accepted by the savings check. -/
theorem savings_check_implies_core_witness :
    check_time_windows [1] tEx custEx = some true :=
  savings_check_implies_core [1] tEx custEx 0 (by decide)

lemma checkTWAux_iff (t : Nat → Nat → α) (cust : Nat → Customer α) :
    ∀ (route : List Nat) (prev : Nat) (time : α),
      checkTWAux t cust route prev time = true ↔
        (List.Forall₂ (fun s c => s ≤ (cust c).due_date)
            (serviceStartsAux t cust route prev time) route ∧
          depotReturnAux t cust route prev time ≤ (cust 0).due_date)
  | [], prev, time => by
    simp [checkTWAux, serviceStartsAux, depotReturnAux]
  | c :: rest, prev, time => by
    simp only [checkTWAux, serviceStartsAux, depotReturnAux, List.forall₂_cons]
    by_cases h : (cust c).due_date < max (cust c).ready_time (time + t prev c)
    · simp only [if_pos h]
      constructor
      · intro hfalse; exact absurd hfalse (by simp)
      · rintro ⟨⟨hle, -⟩, -⟩; exact absurd hle (not_le.mpr h)
    · simp only [if_neg h]
      rw [checkTWAux_iff t cust rest c _]
      push_neg at h
      tauto

/-- Claim C1: soundness (and completeness) of the feasibility oracle.  For a
non-empty route, `check_time_windows` returns `True` precisely when the
depot-started simulation gives every position a service-start time at most
the due date of the customer at that position, and an arrival back at the
depot at most the depot's due date; in particular any violated due-date
bound makes it return `False`. -/
theorem check_time_windows_iff_sim (route : List Nat) (t : Nat → Nat → α)
    (cust : Nat → Customer α) (h : route ≠ []) :
    check_time_windows route t cust = some true ↔
      (List.Forall₂ (fun s c => s ≤ (cust c).due_date)
          (serviceStarts route t cust) route ∧
        depotReturn route t cust ≤ (cust 0).due_date) := by
  match route with
  | [] => exact absurd rfl h
  | a :: l =>
    show some _ = some true ↔ _
    rw [Option.some_inj]
    exact checkTWAux_iff t cust (a :: l) 0 (cust 0).ready_time

lemma beginTimeAux_not_mem (j : Int) (t : Nat → Nat → α)
    (cust : Nat → Customer α) :
    ∀ (route : List Nat) (prev : Nat) (time : α), (∀ c ∈ route, (c : Int) ≠ j) →
      beginTimeAux j t cust route prev time = depotReturnAux t cust route prev time
  | [], _, _, _ => rfl
  | c :: rest, prev, time, hj => by
    simp only [beginTimeAux, depotReturnAux,
      if_neg (hj c (List.mem_cons_self c rest))]
    exact beginTimeAux_not_mem j t cust rest c _ fun x hx => hj x (List.mem_cons_of_mem c hx)

/-- `begin_time` on a route that does not contain the queried index returns
the full simulated route time (sentinel query). -/
lemma begin_time_not_mem (j : Int) (route : List Nat) (t : Nat → Nat → α)
    (cust : Nat → Customer α) (h : route ≠ []) (hj : ∀ c ∈ route, (c : Int) ≠ j) :
    begin_time j route t cust = some (depotReturn route t cust) := by
  match route with
  | [] => exact absurd rfl h
  | a :: l =>
    show some _ = some _
    rw [Option.some_inj, depotReturn]
    exact beginTimeAux_not_mem j t cust (a :: l) 0 _ hj

lemma beginTimeAux_mem (t : Nat → Nat → α) (cust : Nat → Customer α) (c : Nat) :
    ∀ (route : List Nat) (prev : Nat) (time : α), c ∈ route →
      some (beginTimeAux (c : Int) t cust route prev time) =
        (serviceStartsAux t cust route prev time).get? (route.indexOf c)
  | [], _, _, hc => absurd hc (List.not_mem_nil c)
  | a :: rest, prev, time, hc => by
    by_cases hac : a = c
    · subst hac
      simp [beginTimeAux, serviceStartsAux, List.indexOf_cons_self]
    · have hne : (a : Int) ≠ (c : Int) := fun hh => hac (by exact_mod_cast hh)
      have hmem : c ∈ rest := by
        rcases List.mem_cons.mp hc with h | h
        · exact absurd h.symm hac
        · exact h
      simp only [beginTimeAux, serviceStartsAux, if_neg hne,
        List.indexOf_cons_ne rest hac, List.get?]
      exact beginTimeAux_mem t cust c rest a _ hmem

/-- Claim C6: the sentinel query of `begin_time`.  On a non-empty route, an
index `j` absent from the route (such as the sentinel `-1`) yields the full
simulated route time, depot ready time and final return leg included; an
index that does occur yields the service-start clock of its (first)
occurrence. -/
theorem begin_time_query (j : Int) (route : List Nat) (t : Nat → Nat → α)
    (cust : Nat → Customer α) (h : route ≠ []) :
    ((∀ c ∈ route, (c : Int) ≠ j) →
        begin_time j route t cust = some (depotReturn route t cust)) ∧
      (∀ c : Nat, (c : Int) = j → c ∈ route →
        begin_time j route t cust =
          (serviceStarts route t cust).get? (route.indexOf c)) := by
  constructor
  · exact begin_time_not_mem j route t cust h
  · intro c hcj hc
    subst hcj
    match route with
    | [] => exact absurd rfl h
    | a :: l => exact beginTimeAux_mem t cust c (a :: l) 0 _ hc

/-- Witness for C6: the sentinel `-1` on the route `[1]`. -/
theorem begin_time_query_witness :
    begin_time (-1) [1] tEx custEx = some (depotReturn [1] tEx custEx) :=
  (begin_time_query (-1) [1] tEx custEx (by decide)).1 (by decide)

/-- Claim C9: both oracle operations are partial on the empty route (the
Python code indexes an empty list, resp. reads an unset loop variable), and
total on every non-empty route. -/
theorem oracle_empty_route_partial :
    (∀ (j : Int) (t : Nat → Nat → α) (cust : Nat → Customer α),
        begin_time j [] t cust = none) ∧
      (∀ (t : Nat → Nat → α) (cust : Nat → Customer α),
        check_time_windows [] t cust = none) ∧
      (∀ (j : Int) (t : Nat → Nat → α) (cust : Nat → Customer α)
          (route : List Nat), route ≠ [] →
        (begin_time j route t cust).isSome = true ∧
          (check_time_windows route t cust).isSome = true) := by
  refine ⟨fun _ _ _ => rfl, fun _ _ => rfl, fun j t cust route h => ?_⟩
  match route with
  | [] => exact absurd rfl h
  | a :: l => exact ⟨rfl, rfl⟩

/-- Witness for C9 (third conjunct, on the route `[1]`). -/
theorem oracle_empty_route_partial_witness :
    (begin_time (-1) [1] tEx custEx).isSome = true ∧
      (check_time_windows [1] tEx custEx).isSome = true :=
  oracle_empty_route_partial.2.2 (-1) tEx custEx [1] (by decide)

/-- Witness for C1 on a concrete one-customer route. -/
theorem check_time_windows_iff_sim_witness :
    (([1] : List Nat) ≠ []) ∧
      (check_time_windows [1] tEx custEx = some true ↔
        (List.Forall₂ (fun s c => s ≤ (custEx c).due_date)
            (serviceStarts [1] tEx custEx) [1] ∧
          depotReturn [1] tEx custEx ≤ (custEx 0).due_date)) :=
  ⟨by decide, check_time_windows_iff_sim [1] tEx custEx (by decide)⟩

/-- Counterexample to claim C4: with unit travel times, appending customer
`2` at the depot-end position of the route `[1]` delays the return to the
depot by one time unit, so `c12` is `1`, not `0`. -/
theorem c12_depot_end_not_zero : c12 2 0 [1] tEx custEx ≠ some 0 := by
  decide

/-- Claim C4 (amended): at the depot-end sentinel `j = 0`, `c12` equals the
growth of the full simulated route time caused by appending `u` — the delay
of the arrival back at the depot — which is in general non-zero. -/
theorem c12_depot_end_eq_return_delay (u : Nat) (route : List Nat)
    (t : Nat → Nat → α) (cust : Nat → Customer α) (h : route ≠ [])
    (h0 : ∀ c ∈ route, c ≠ 0) (hu : u ≠ 0) :
    c12 u 0 route t cust =
      some (depotReturn (route ++ [u]) t cust - depotReturn route t cust) := by
  have h1 : ∀ c ∈ route ++ [u], (c : Int) ≠ (((0 : Nat) : Int)) := by
    intro c hc
    rcases List.mem_append.mp hc with hc | hc
    · exact fun hh => h0 c hc (by exact_mod_cast hh)
    · have hcu : c = u := by simpa using hc
      subst hcu
      exact fun hh => hu (by exact_mod_cast hh)
  have h2 : ∀ c ∈ route, (c : Int) ≠ (((0 : Nat) : Int)) :=
    fun c hc hh => h0 c hc (by exact_mod_cast hh)
  have e1 := begin_time_not_mem (((0 : Nat) : Int)) (route ++ [u]) t cust
    (by simp) h1
  have e2 := begin_time_not_mem (((0 : Nat) : Int)) route t cust h h2
  rw [c12, if_pos rfl, e1, e2]

/-- Witness for C4 (amended) on the route `[1]` with `u = 2`. -/
theorem c12_depot_end_eq_return_delay_witness :
    c12 2 0 [1] tEx custEx =
      some (depotReturn [1, 2] tEx custEx - depotReturn [1] tEx custEx) :=
  c12_depot_end_eq_return_delay 2 [1] tEx custEx (by decide) (by decide)
    (by decide)

/-- `insertion(route, u, (i, j))` (`solomon_insertion.py` lines 85-98):
insert `u` at the front when the predecessor `i` is the depot, append it
when the successor `j` is the depot, otherwise insert it before the first
occurrence of `j` (`list.index` raises when `j` is absent, hence `none`). -/
def insertion (route : List Nat) (u : Nat) (p : Nat × Nat) :
    Option (List Nat) :=
  if p.1 = 0 then some (u :: route)
  else if p.2 = 0 then some (route ++ [u])
  else if p.2 ∈ route then some (route.insertIdx (route.indexOf p.2) u)
  else none

/-- Python's `max(xs, key=k)`: the first element with the largest key;
`none` on an empty sequence (Python raises `ValueError`). -/
def pyMaxBy {β : Type} (key : β → α) : List β → Option β
  | [] => none
  | x :: xs => some (xs.foldl (fun b a => if key b < key a then a else b) x)

/-- Python's `min(xs, key=k)`: the first element with the smallest key;
`none` on an empty sequence (Python raises `ValueError`). -/
def pyMinBy {β : Type} (key : β → α) : List β → Option β
  | [] => none
  | x :: xs => some (xs.foldl (fun b a => if key a < key b then a else b) x)

/-- The engine's inner edge loop (`sweep.py` lines 73-81, identical in
`solomon_insertion.py` lines 131-139): for each depot-flanked adjacent pair
`(i, j)` of the route, keep the pair together with its composite cost
`c1 = alpha_1 * c11 + alpha_2 * c12` when inserting `u` there passes the
time-window check. -/
def feasPlaces (d t : Nat → Nat → α) (cust : Nat → Customer α)
    (mu alpha_1 alpha_2 : α) (route : List Nat) (u : Nat) :
    List (Nat × Nat) → Option (List ((Nat × Nat) × α))
  | [] => some []
  | p :: rest =>
    match insertion route u p with
    | none => none
    | some new_route =>
      match check_time_windows new_route t cust with
      | none => none
      | some false => feasPlaces d t cust mu alpha_1 alpha_2 route u rest
      | some true =>
        match c12 u p.2 route t cust with
        | none => none
        | some w =>
          match feasPlaces d t cust mu alpha_1 alpha_2 route u rest with
          | none => none
          | some l =>
            some ((p, alpha_1 * c11 p.1 u p.2 d mu + alpha_2 * w) :: l)

/-- The engine's candidate loop (`sweep.py` lines 66-89, identical in
`solomon_insertion.py` lines 124-147): every unrouted customer whose demand
fits the remaining capacity and that has a feasible insertion place
contributes its first-minimal-`c1` place and its priority
`c2 = lam * d[0][u] - best_c1`. -/
def insertionCandidates (d t : Nat → Nat → α) (cust : Nat → Customer α)
    (capacity mu lam alpha_1 alpha_2 : α) (route : List Nat) (load : α) :
    List Nat → Option (List (Nat × (Nat × Nat) × α))
  | [] => some []
  | u :: rest =>
    if capacity < load + (cust u).demand then
      insertionCandidates d t cust capacity mu lam alpha_1 alpha_2 route load rest
    else
      match feasPlaces d t cust mu alpha_1 alpha_2 route u
          (List.zip (0 :: route) (route ++ [0])) with
      | none => none
      | some places =>
        match pyMinBy (fun pl => pl.2) places with
        | none =>
          insertionCandidates d t cust capacity mu lam alpha_1 alpha_2 route load rest
        | some best =>
          match insertionCandidates d t cust capacity mu lam alpha_1 alpha_2
              route load rest with
          | none => none
          | some l => some ((u, best.1, lam * d 0 u - best.2) :: l)

/-- The engine's `while True` loop (`sweep.py` lines 64-99, identical in
`solomon_insertion.py` lines 122-157), structured by fuel: each pass either
stops (no candidate), performs the best feasible insertion, removes the
chosen customer from the pool and recurses, or propagates a crash.  Each
pass removes one pool member, so `unrouted.length + 1` fuel always reaches
the stopping pass; fuel exhaustion is also `none`. -/
def engineLoop (d t : Nat → Nat → α) (cust : Nat → Customer α)
    (capacity mu lam alpha_1 alpha_2 : α) :
    Nat → List Nat → List Nat → α → Option (List Nat × List Nat)
  | 0, _, _, _ => none
  | fuel + 1, route, unrouted, load =>
    match insertionCandidates d t cust capacity mu lam alpha_1 alpha_2
        route load unrouted with
    | none => none
    | some cands =>
      match pyMaxBy (fun cd => cd.2.2) cands with
      | none => some (route, unrouted)
      | some (u, p, _) =>
        match insertion route u p with
        | none => none
        | some new_route =>
          engineLoop d t cust capacity mu lam alpha_1 alpha_2 fuel
            new_route (unrouted.erase u) (load + (cust u).demand)

/-- `insertion_heuristic_st(d, t, problem, customers, cluster, i1_params,
init_criterium)` (`sweep.py` lines 44-101): seed rule `0` seeds with the
customer farthest from the depot, rule `1` with the earliest due date —
Python's `max()` / `min()` raise on an empty cluster, hence `none`; any
other rule value leaves the route empty and enters the loop directly.  The
running `load` starts at `0` in every case, exactly as in the source.  The
parameters `mu, lam, alpha_1, alpha_2` are the unpacked `i1_params`. -/
def insertion_heuristic_st (d t : Nat → Nat → α) (problem : Problem α)
    (cust : Nat → Customer α) (cluster : List Nat)
    (mu lam alpha_1 alpha_2 : α) (init_criterium : Nat) :
    Option (List Nat × List Nat) :=
  if init_criterium = 0 then
    match pyMaxBy (fun c => d 0 c) cluster with
    | none => none
    | some fc =>
      engineLoop d t cust problem.capacity mu lam alpha_1 alpha_2
        ((cluster.erase fc).length + 1) [fc] (cluster.erase fc) 0
  else if init_criterium = 1 then
    match pyMinBy (fun c => (cust c).due_date) cluster with
    | none => none
    | some ec =>
      engineLoop d t cust problem.capacity mu lam alpha_1 alpha_2
        ((cluster.erase ec).length + 1) [ec] (cluster.erase ec) 0
  else
    engineLoop d t cust problem.capacity mu lam alpha_1 alpha_2
      (cluster.length + 1) [] cluster 0

/-- The outer loop of `insertion_heuristic` (`solomon_insertion.py` lines
109-163): seed a new route, grow it with the engine loop, and stop when the
pool is empty or the route count reaches the vehicle count.  A seed rule
other than 0/1 makes the Python body read the unbound name `route`, hence
`none`. -/
def insertionOuter (d t : Nat → Nat → α) (problem : Problem α)
    (cust : Nat → Customer α) (mu lam alpha_1 alpha_2 : α)
    (init_criterium : Nat) :
    Nat → List (List Nat) → List Nat → Option (List (List Nat))
  | 0, _, _ => none
  | fuel + 1, routes, unrouted =>
    if unrouted.isEmpty then some routes
    else
      match
        (if init_criterium = 0 then pyMaxBy (fun c => d 0 c) unrouted
          else if init_criterium = 1 then
            pyMinBy (fun c => (cust c).due_date) unrouted
          else none) with
      | none => none
      | some seed =>
        match engineLoop d t cust problem.capacity mu lam alpha_1 alpha_2
            ((unrouted.erase seed).length + 1) [seed] (unrouted.erase seed) 0 with
        | none => none
        | some (route, rest) =>
          if (routes ++ [route]).length = problem.vehicle_number then
            some (routes ++ [route])
          else
            insertionOuter d t problem cust mu lam alpha_1 alpha_2
              init_criterium fuel (routes ++ [route]) rest

/-- `insertion_heuristic(d, t, problem, customers, i1_params,
init_criterium)` (`solomon_insertion.py` lines 100-164); `n` is the number
of customers excluding the depot, so the initial pool is
`[1, ..., n]` (`range(1, len(customers))`). -/
def insertion_heuristic (d t : Nat → Nat → α) (problem : Problem α)
    (cust : Nat → Customer α) (n : Nat) (mu lam alpha_1 alpha_2 : α)
    (init_criterium : Nat) : Option (List (List Nat)) :=
  insertionOuter d t problem cust mu lam alpha_1 alpha_2 init_criterium
    (n + 1) [] (List.range' 1 n)

/-- Total demand of the customers of a route. -/
def routeDemand (route : List Nat) (cust : Nat → Customer α) : α :=
  (route.map fun c => (cust c).demand).sum

lemma foldl_choice_mem {β : Type} (f : β → β → β)
    (hf : ∀ b a, f b a = b ∨ f b a = a) :
    ∀ (xs : List β) (x : β), xs.foldl f x ∈ x :: xs
  | [], x => List.mem_cons_self x []
  | y :: ys, x => by
    rw [List.foldl_cons]
    have h := foldl_choice_mem f hf ys (f x y)
    rcases List.mem_cons.mp h with h | h
    · rcases hf x y with he | he
      · rw [h, he]; exact List.mem_cons_self _ _
      · rw [h, he]
        exact List.mem_cons_of_mem _ (List.mem_cons_self _ _)
    · exact List.mem_cons_of_mem _ (List.mem_cons_of_mem _ h)

lemma pyMaxBy_mem {β : Type} (key : β → α) (xs : List β) (m : β)
    (h : pyMaxBy key xs = some m) : m ∈ xs := by
  match xs with
  | [] => exact absurd h (by simp [pyMaxBy])
  | x :: l =>
    have hm := Option.some_inj.mp h
    have := foldl_choice_mem (fun b a => if key b < key a then a else b)
      (fun b a => by dsimp only; split <;> simp) l x
    rw [hm] at this
    exact this

lemma pyMinBy_mem {β : Type} (key : β → α) (xs : List β) (m : β)
    (h : pyMinBy key xs = some m) : m ∈ xs := by
  match xs with
  | [] => exact absurd h (by simp [pyMinBy])
  | x :: l =>
    have hm := Option.some_inj.mp h
    have := foldl_choice_mem (fun b a => if key a < key b then a else b)
      (fun b a => by dsimp only; split <;> simp) l x
    rw [hm] at this
    exact this

lemma perm_insertIdx {β : Type} (a : β) :
    ∀ (l : List β) (n : Nat), n ≤ l.length → (l.insertIdx n a).Perm (a :: l)
  | l, 0, _ => by rw [List.insertIdx_zero]
  | [], n + 1, h => by simp at h
  | b :: l, n + 1, h => by
    rw [List.insertIdx_succ_cons]
    exact ((perm_insertIdx a l n (by simpa using h)).cons b).trans
      (List.Perm.swap a b l)

lemma insertion_perm (route : List Nat) (u : Nat) (p : Nat × Nat)
    (r : List Nat) (h : insertion route u p = some r) : r.Perm (u :: route) := by
  unfold insertion at h
  split at h
  · cases h; exact List.Perm.refl _
  · split at h
    · cases h; exact List.perm_append_singleton u route
    · split at h
      · cases h
        exact perm_insertIdx u route (route.indexOf p.2)
          (le_of_lt (List.indexOf_lt_length.mpr (by assumption)))
      · exact absurd h (by simp)

lemma insertionCandidates_mem (d t : Nat → Nat → α) (cust : Nat → Customer α)
    (capacity mu lam alpha_1 alpha_2 : α) (route : List Nat) (load : α) :
    ∀ (unrouted : List Nat) (cands : List (Nat × (Nat × Nat) × α)),
      insertionCandidates d t cust capacity mu lam alpha_1 alpha_2 route load
          unrouted = some cands →
        ∀ x ∈ cands, x.1 ∈ unrouted
  | [], cands, h => by
    cases h; intro x hx; exact absurd hx (List.not_mem_nil x)
  | u :: rest, cands, h => by
    rw [insertionCandidates] at h
    split at h
    · intro x hx
      exact List.mem_cons_of_mem u
        (insertionCandidates_mem d t cust capacity mu lam alpha_1 alpha_2
          route load rest cands h x hx)
    · split at h
      · exact absurd h (by simp)
      · split at h
        · intro x hx
          exact List.mem_cons_of_mem u
            (insertionCandidates_mem d t cust capacity mu lam alpha_1 alpha_2
              route load rest cands h x hx)
        · split at h
          · exact absurd h (by simp)
          · cases h
            intro x hx
            rcases List.mem_cons.mp hx with hx | hx
            · rw [hx]; exact List.mem_cons_self u rest
            · exact List.mem_cons_of_mem u
                (insertionCandidates_mem d t cust capacity mu lam alpha_1
                  alpha_2 route load rest _ (by assumption) x hx)

lemma engineLoop_perm (d t : Nat → Nat → α) (cust : Nat → Customer α)
    (capacity mu lam alpha_1 alpha_2 : α) :
    ∀ (fuel : Nat) (route unrouted : List Nat) (load : α) (r l : List Nat),
      engineLoop d t cust capacity mu lam alpha_1 alpha_2 fuel route unrouted
          load = some (r, l) →
        (r ++ l).Perm (route ++ unrouted) := by
  intro fuel
  induction fuel with
  | zero => intro route unrouted load r l h; exact absurd h (by simp [engineLoop])
  | succ f ih =>
    intro route unrouted load r l h
    rw [engineLoop] at h
    cases hcands : insertionCandidates d t cust capacity mu lam alpha_1
        alpha_2 route load unrouted with
    | none => rw [hcands] at h; exact absurd h (by simp)
    | some cands =>
      rw [hcands] at h
      dsimp only at h
      cases hmax : pyMaxBy (fun cd => cd.2.2) cands with
      | none =>
        rw [hmax] at h
        dsimp only at h
        simp only [Option.some_inj, Prod.mk.injEq] at h
        rw [← h.1, ← h.2]
      | some cd =>
        obtain ⟨u, p, c2v⟩ := cd
        rw [hmax] at h
        dsimp only at h
        cases hnr : insertion route u p with
        | none => rw [hnr] at h; exact absurd h (by simp)
        | some nr =>
          rw [hnr] at h
          dsimp only at h
          have hmem : (u, p, c2v) ∈ cands :=
            pyMaxBy_mem (fun cd => cd.2.2) cands (u, p, c2v) hmax
          have hu : u ∈ unrouted :=
            insertionCandidates_mem d t cust capacity mu lam alpha_1 alpha_2
              route load unrouted cands hcands (u, p, c2v) hmem
          have h1 : nr.Perm (u :: route) := insertion_perm route u p nr hnr
          have h2 := ih nr (unrouted.erase u) (load + (cust u).demand) r l h
          have h3 : (nr ++ unrouted.erase u).Perm
              (u :: (route ++ unrouted.erase u)) := h1.append_right _
          have h4 : (route ++ unrouted).Perm
              (route ++ (u :: unrouted.erase u)) :=
            (List.perm_cons_erase hu).append_left route
          have h5 : (route ++ (u :: unrouted.erase u)).Perm
              (u :: (route ++ unrouted.erase u)) := List.perm_middle
          exact (h2.trans h3).trans (h4.trans h5).symm

lemma engineLoop_ne_nil (d t : Nat → Nat → α) (cust : Nat → Customer α)
    (capacity mu lam alpha_1 alpha_2 : α) :
    ∀ (fuel : Nat) (route unrouted : List Nat) (load : α) (r l : List Nat),
      engineLoop d t cust capacity mu lam alpha_1 alpha_2 fuel route unrouted
          load = some (r, l) →
        route ≠ [] → r ≠ [] := by
  intro fuel
  induction fuel with
  | zero => intro route unrouted load r l h; exact absurd h (by simp [engineLoop])
  | succ f ih =>
    intro route unrouted load r l h hroute
    rw [engineLoop] at h
    cases hcands : insertionCandidates d t cust capacity mu lam alpha_1
        alpha_2 route load unrouted with
    | none => rw [hcands] at h; exact absurd h (by simp)
    | some cands =>
      rw [hcands] at h
      dsimp only at h
      cases hmax : pyMaxBy (fun cd => cd.2.2) cands with
      | none =>
        rw [hmax] at h
        dsimp only at h
        simp only [Option.some_inj, Prod.mk.injEq] at h
        rw [← h.1]
        exact hroute
      | some cd =>
        obtain ⟨u, p, c2v⟩ := cd
        rw [hmax] at h
        dsimp only at h
        cases hnr : insertion route u p with
        | none => rw [hnr] at h; exact absurd h (by simp)
        | some nr =>
          rw [hnr] at h
          dsimp only at h
          have h1 : nr.Perm (u :: route) := insertion_perm route u p nr hnr
          have hnr2 : nr ≠ [] := by
            intro hnil
            have := h1.length_eq
            rw [hnil] at this
            simp at this
          exact ih nr (unrouted.erase u) (load + (cust u).demand) r l h hnr2

lemma insertion_heuristic_st_perm (d t : Nat → Nat → α)
    (problem : Problem α) (cust : Nat → Customer α) (cluster : List Nat)
    (mu lam alpha_1 alpha_2 : α) (init_criterium : Nat) (r l : List Nat)
    (h : insertion_heuristic_st d t problem cust cluster mu lam alpha_1
        alpha_2 init_criterium = some (r, l)) :
    (r ++ l).Perm cluster ∧
      (init_criterium = 0 ∨ init_criterium = 1 → r ≠ []) := by
    unfold insertion_heuristic_st at h
    split at h
    · rename_i h0
      split at h
      · exact absurd h (by simp)
      · rename_i fc hfc
        have hmem : fc ∈ cluster := pyMaxBy_mem _ cluster fc hfc
        have hp := engineLoop_perm d t cust problem.capacity mu lam alpha_1
          alpha_2 _ [fc] (cluster.erase fc) 0 r l h
        refine ⟨hp.trans ?_, fun _ => engineLoop_ne_nil d t cust
          problem.capacity mu lam alpha_1 alpha_2 _ [fc] (cluster.erase fc)
          0 r l h (by simp)⟩
        exact (List.perm_cons_erase hmem).symm
    · split at h
      · rename_i h0 h1
        split at h
        · exact absurd h (by simp)
        · rename_i ec hec
          have hmem : ec ∈ cluster := pyMinBy_mem _ cluster ec hec
          have hp := engineLoop_perm d t cust problem.capacity mu lam alpha_1
            alpha_2 _ [ec] (cluster.erase ec) 0 r l h
          refine ⟨hp.trans ?_, fun _ => engineLoop_ne_nil d t cust
            problem.capacity mu lam alpha_1 alpha_2 _ [ec] (cluster.erase ec)
            0 r l h (by simp)⟩
          exact (List.perm_cons_erase hmem).symm
      · rename_i h0 h1
        have hp := engineLoop_perm d t cust problem.capacity mu lam alpha_1
          alpha_2 _ [] cluster 0 r l h
        refine ⟨by simpa using hp, fun hc => ?_⟩
        rcases hc with hc | hc
        · exact absurd hc h0
        · exact absurd hc h1

/-- Claim C3 (amended): conservation of the single-tour engine.  Whenever
`insertion_heuristic_st` returns `(route, leftover)`, route and leftover
together are a permutation of the initial pool — every inserted customer
(seed included) stays in the route and nothing is invented or lost — so
`route.length + leftover.length = pool.length` (the seed is an element of
the pool, so there is no `+ 1`); for a duplicate-free pool the route and
the leftover are disjoint.  With seed rules 0/1 the returned route is
non-empty. -/
theorem insertion_heuristic_st_conservation (d t : Nat → Nat → α)
    (problem : Problem α) (cust : Nat → Customer α) (cluster : List Nat)
    (mu lam alpha_1 alpha_2 : α) (init_criterium : Nat) (r l : List Nat)
    (h : insertion_heuristic_st d t problem cust cluster mu lam alpha_1
        alpha_2 init_criterium = some (r, l)) :
    (r ++ l).Perm cluster ∧ r.length + l.length = cluster.length ∧
      (cluster.Nodup → r.Disjoint l) ∧
      (init_criterium = 0 ∨ init_criterium = 1 → r ≠ []) := by
  have hperm := insertion_heuristic_st_perm d t problem cust cluster mu lam
    alpha_1 alpha_2 init_criterium r l h
  refine ⟨hperm.1, ?_, ?_, hperm.2⟩
  · have := hperm.1.length_eq
    simpa using this
  · intro hnd
    have : (r ++ l).Nodup := (hperm.1.nodup_iff).mpr hnd
    exact (List.nodup_append.mp this).2.2

/-- Witness for C3 (amended) on the pool `[1, 2]`. -/
theorem insertion_heuristic_st_conservation_witness :
    (([2, 1] ++ [] : List Nat)).Perm [1, 2] ∧
      ([2, 1] : List Nat).length + ([] : List Nat).length =
        ([1, 2] : List Nat).length ∧
      (([1, 2] : List Nat).Nodup → ([2, 1] : List Nat).Disjoint []) ∧
      ((0 : Nat) = 0 ∨ (0 : Nat) = 1 → ([2, 1] : List Nat) ≠ []) :=
  insertion_heuristic_st_conservation tEx tEx probEx custEx [1, 2] 1 1 1 0 0
    [2, 1] [] (by decide)

/-- Counterexample to claim C3: on the pool `[1, 2]` the engine returns the
route `[2, 1]` with empty leftover, and `2 + 0 ≠ 2 + 1` — the seed is an
element of the pool, so route plus leftover total the pool size, not the
pool size plus one. -/
theorem insertion_heuristic_st_count_ctrex :
    insertion_heuristic_st tEx tEx probEx custEx [1, 2] 1 1 1 0 0 =
        some ([2, 1], []) ∧
      ¬(([2, 1] : List Nat).length + ([] : List Nat).length =
        ([1, 2] : List Nat).length + 1) := by
  decide

/-- Claim C2 is violated by the code: the running `load` starts at `0` and
never counts the seed's demand, so with capacity `10` and two customers of
demand `10` the engine (and the plain insertion heuristic built on the same
loop) returns the single route `[2, 1]` of total demand `20 > 10`. -/
theorem engine_capacity_violation :
    insertion_heuristic_st tEx tEx probEx custEx [1, 2] 1 1 1 0 0 =
        some ([2, 1], []) ∧
      insertion_heuristic tEx tEx probEx custEx 2 1 1 1 0 0 = some [[2, 1]] ∧
      probEx.capacity < routeDemand [2, 1] custEx := by
  decide

/-- Counterexample to claim C5: with seed rule 0 (farthest customer) the
engine applied to an empty pool raises (`max()` of an empty sequence)
instead of returning an empty route with empty leftover. -/
theorem insertion_heuristic_st_empty_pool_ctrex :
    insertion_heuristic_st tEx tEx probEx custEx [] 1 1 1 0 0 ≠
      some ([], []) := by
  decide

/-- Claim C5 (amended): on an empty pool the engine fails for the two
defined seed rules (Python's `max()` / `min()` raise on an empty sequence),
and returns an empty route with empty leftover for any other seed-rule
value. -/
theorem insertion_heuristic_st_empty_pool (d t : Nat → Nat → α)
    (problem : Problem α) (cust : Nat → Customer α)
    (mu lam alpha_1 alpha_2 : α) (init_criterium : Nat) :
    ((init_criterium = 0 ∨ init_criterium = 1) →
        insertion_heuristic_st d t problem cust [] mu lam alpha_1 alpha_2
          init_criterium = none) ∧
      (init_criterium ≠ 0 → init_criterium ≠ 1 →
        insertion_heuristic_st d t problem cust [] mu lam alpha_1 alpha_2
          init_criterium = some ([], [])) := by
  constructor
  · rintro (rfl | rfl) <;> rfl
  · intro h0 h1
    unfold insertion_heuristic_st
    rw [if_neg h0, if_neg h1]
    rfl

/-- Witness for C5 (amended): seed rule 0 fails, seed rule 2 is a no-op. -/
theorem insertion_heuristic_st_empty_pool_witness :
    insertion_heuristic_st tEx tEx probEx custEx [] 1 1 1 0 0 = none ∧
      insertion_heuristic_st tEx tEx probEx custEx [] 1 1 1 0 2 =
        some ([], []) :=
  ⟨(insertion_heuristic_st_empty_pool tEx tEx probEx custEx 1 1 1 0 0).1
      (Or.inl rfl),
    (insertion_heuristic_st_empty_pool tEx tEx probEx custEx 1 1 1 0 2).2
      (by decide) (by decide)⟩

/-- The greedy capacity packing of phase 2 of `sweep_heuristic` (`sweep.py`
lines 150-159): walk the pool in order, appending each customer to the
current cluster while the load fits, otherwise opening a new cluster;
`done` holds the finished clusters and `cur` the cluster being filled
(Python starts from `clusters = [[]]`, i.e. `done = []`, `cur = []`,
`load = 0`). -/
def packAux (cust : Nat → Customer α) (capacity : α) :
    List Nat → List (List Nat) → List Nat → α → List (List Nat)
  | [], done, cur, _ => done ++ [cur]
  | i :: rest, done, cur, load =>
    if load + (cust i).demand ≤ capacity then
      packAux cust capacity rest done (cur ++ [i]) (load + (cust i).demand)
    else packAux cust capacity rest (done ++ [cur]) [i] (cust i).demand

/-- The cluster list produced by one phase-2 packing pass. -/
def packClusters (cust : Nat → Customer α) (capacity : α)
    (pool : List Nat) : List (List Nat) :=
  packAux cust capacity pool [] [] 0

/-- One engine pass over the packed clusters (`sweep.py` lines 161-165):
run `insertion_heuristic_st` on every cluster in order, collecting the
routes and concatenating the leftovers. -/
def runClusters (d t : Nat → Nat → α) (problem : Problem α)
    (cust : Nat → Customer α) (mu lam alpha_1 alpha_2 : α)
    (init_criterium : Nat) :
    List (List Nat) → Option (List (List Nat) × List Nat)
  | [] => some ([], [])
  | c :: cs =>
    match insertion_heuristic_st d t problem cust c mu lam alpha_1 alpha_2
        init_criterium with
    | none => none
    | some (route, unrouted) =>
      match runClusters d t problem cust mu lam alpha_1 alpha_2
          init_criterium cs with
      | none => none
      | some (routes, leftover) => some (route :: routes, unrouted ++ leftover)

/-- Phase 2 of `sweep_heuristic` (`sweep.py` lines 147-166), one recursive
call per `while` pass, structured by fuel.  The re-ordering of the pool by
`bissect` (lines 103-118) depends on floating-point `atan2` angles of the
customer coordinates and is abstracted as the function argument `reorder`
(the code filters the precomputed angle list down to the pool and sorts it,
so it permutes the pool); the loop body packs the reordered pool into
capacity-bounded clusters and runs the engine on each, then recurses on the
collected leftovers. -/
def phase2 (reorder : List Nat → List Nat) (d t : Nat → Nat → α)
    (problem : Problem α) (cust : Nat → Customer α)
    (mu lam alpha_1 alpha_2 : α) (init_criterium : Nat) :
    Nat → List Nat → Option (List (List Nat))
  | 0, _ => none
  | fuel + 1, pool =>
    if pool.isEmpty then some []
    else
      match runClusters d t problem cust mu lam alpha_1 alpha_2 init_criterium
          (packClusters cust problem.capacity (reorder pool)) with
      | none => none
      | some (routes, leftover) =>
        match phase2 reorder d t problem cust mu lam alpha_1 alpha_2
            init_criterium fuel leftover with
        | none => none
        | some more => some (routes ++ more)

/-- Modelled from the spec: `insertion_heuristic_sr`, the engine entry
point that `kmeans_vrptw.py` (line 15) imports from the insertion module,
is defined in none of the source files — the only engines defined are
`insertion_heuristic` and `insertion_heuristic_st` — so any use of the name
fails (`ImportError` at module load); it is modelled as the always-failing
function. -/
def insertion_heuristic_sr (d t : Nat → Nat → α) (problem : Problem α)
    (cust : Nat → Customer α) (cluster : List Nat)
    (mu lam alpha_1 alpha_2 : α) (init_criterium : Nat) :
    Option (List Nat × List Nat) :=
  none

/-- Route building of the clustering front-end (`kmeans_vrptw.py` lines
117-125): skip empty clusters, call `insertion_heuristic_sr` on each
non-empty one, collect routes and concatenate leftovers. -/
def kmeansBuildRoutes (d t : Nat → Nat → α) (problem : Problem α)
    (cust : Nat → Customer α) (mu lam alpha_1 alpha_2 : α)
    (init_criterium : Nat) :
    List (List Nat) → Option (List (List Nat) × List Nat)
  | [] => some ([], [])
  | c :: cs =>
    if c.isEmpty then
      kmeansBuildRoutes d t problem cust mu lam alpha_1 alpha_2
        init_criterium cs
    else
      match insertion_heuristic_sr d t problem cust c mu lam alpha_1 alpha_2
          init_criterium with
      | none => none
      | some (route, unrouted) =>
        match kmeansBuildRoutes d t problem cust mu lam alpha_1 alpha_2
            init_criterium cs with
        | none => none
        | some (routes, leftover) => some (route :: routes, unrouted ++ leftover)

/-- Outer loop of `kmeans_vrptw` (`kmeans_vrptw.py` lines 78-127),
structured by fuel.  The randomized clustering (`k` choice, k-means++
seeding and the Lloyd iterations, lines 80-115) is abstracted as the
function argument `clusterize`; the code assigns every unrouted customer to
its nearest centroid, so any faithful `clusterize` covers its argument. -/
def kmeansLoop (clusterize : List Nat → List (List Nat))
    (d t : Nat → Nat → α) (problem : Problem α) (cust : Nat → Customer α)
    (mu lam alpha_1 alpha_2 : α) (init_criterium : Nat) :
    Nat → List Nat → Option (List (List Nat))
  | 0, _ => none
  | fuel + 1, pool =>
    if pool.isEmpty then some []
    else
      match kmeansBuildRoutes d t problem cust mu lam alpha_1 alpha_2
          init_criterium (clusterize pool) with
      | none => none
      | some (routes, leftover) =>
        match kmeansLoop clusterize d t problem cust mu lam alpha_1 alpha_2
            init_criterium fuel leftover with
        | none => none
        | some more => some (routes ++ more)

lemma packAux_join (cust : Nat → Customer α) (capacity : α) :
    ∀ (pool : List Nat) (done : List (List Nat)) (cur : List Nat) (load : α),
      (packAux cust capacity pool done cur load).flatten =
        done.flatten ++ cur ++ pool
  | [], done, cur, load => by simp [packAux]
  | i :: rest, done, cur, load => by
    rw [packAux]
    split
    · rw [packAux_join cust capacity rest done (cur ++ [i]) _]
      simp
    · rw [packAux_join cust capacity rest (done ++ [cur]) [i] _]
      simp

lemma packAux_ne_nil (cust : Nat → Customer α) (capacity : α) :
    ∀ (pool : List Nat) (done : List (List Nat)) (cur : List Nat) (load : α),
      packAux cust capacity pool done cur load ≠ []
  | [], done, cur, load => by simp [packAux]
  | i :: rest, done, cur, load => by
    rw [packAux]
    split
    · exact packAux_ne_nil cust capacity rest done (cur ++ [i]) _
    · exact packAux_ne_nil cust capacity rest (done ++ [cur]) [i] _

lemma insertion_heuristic_st_progress (d t : Nat → Nat → α)
    (problem : Problem α) (cust : Nat → Customer α) (cluster : List Nat)
    (mu lam alpha_1 alpha_2 : α) (init_criterium : Nat) (r l : List Nat)
    (hinit : init_criterium = 0 ∨ init_criterium = 1)
    (h : insertion_heuristic_st d t problem cust cluster mu lam alpha_1
        alpha_2 init_criterium = some (r, l)) :
    l.length < cluster.length := by
  have hp := insertion_heuristic_st_perm d t problem cust cluster mu lam
    alpha_1 alpha_2 init_criterium r l h
  have hlen : r.length + l.length = cluster.length := by
    have := hp.1.length_eq
    simpa using this
  have hr : 0 < r.length := List.length_pos.mpr (hp.2 hinit)
  omega

lemma runClusters_leftover_lt (d t : Nat → Nat → α) (problem : Problem α)
    (cust : Nat → Customer α) (mu lam alpha_1 alpha_2 : α)
    (init_criterium : Nat)
    (hinit : init_criterium = 0 ∨ init_criterium = 1) :
    ∀ (clusters : List (List Nat)) (rs : List (List Nat)) (l : List Nat),
      runClusters d t problem cust mu lam alpha_1 alpha_2 init_criterium
          clusters = some (rs, l) →
        l.length ≤ clusters.flatten.length ∧
          (clusters ≠ [] → l.length < clusters.flatten.length)
  | [], rs, l, h => by
    simp only [runClusters, Option.some_inj, Prod.mk.injEq] at h
    refine ⟨by rw [← h.2]; simp, fun hc => absurd rfl hc⟩
  | c :: cs, rs, l, h => by
    rw [runClusters] at h
    cases hst : insertion_heuristic_st d t problem cust c mu lam alpha_1
        alpha_2 init_criterium with
    | none => rw [hst] at h; exact absurd h (by simp)
    | some pr =>
      obtain ⟨route, unrouted⟩ := pr
      rw [hst] at h
      dsimp only at h
      cases hrc : runClusters d t problem cust mu lam alpha_1 alpha_2
          init_criterium cs with
      | none => rw [hrc] at h; exact absurd h (by simp)
      | some pr2 =>
        obtain ⟨routes, leftover⟩ := pr2
        rw [hrc] at h
        dsimp only at h
        simp only [Option.some_inj, Prod.mk.injEq] at h
        have h1 : unrouted.length < c.length :=
          insertion_heuristic_st_progress d t problem cust c mu lam alpha_1
            alpha_2 init_criterium route unrouted hinit hst
        have h2 := (runClusters_leftover_lt d t problem cust mu lam alpha_1
          alpha_2 init_criterium hinit cs routes leftover hrc).1
        have hl : l = unrouted ++ leftover := h.2.symm
        subst hl
        constructor
        · simp only [List.length_append, List.flatten_cons]
          omega
        · intro hne
          simp only [List.length_append, List.flatten_cons]
          omega

lemma phase2_fuel_eq (reorder : List Nat → List Nat) (d t : Nat → Nat → α)
    (problem : Problem α) (cust : Nat → Customer α)
    (mu lam alpha_1 alpha_2 : α) (init_criterium : Nat)
    (hre : ∀ p : List Nat, (reorder p).Perm p)
    (hinit : init_criterium = 0 ∨ init_criterium = 1) :
    ∀ (n : Nat) (pool : List Nat) (f1 f2 : Nat), pool.length ≤ n →
      pool.length < f1 → pool.length < f2 →
      phase2 reorder d t problem cust mu lam alpha_1 alpha_2 init_criterium
          f1 pool =
        phase2 reorder d t problem cust mu lam alpha_1 alpha_2 init_criterium
          f2 pool := by
  intro n
  induction n with
  | zero =>
    intro pool f1 f2 hn h1 h2
    have hpool : pool = [] := List.length_eq_zero.mp (Nat.le_zero.mp hn)
    subst hpool
    obtain ⟨a, rfl⟩ : ∃ a, f1 = a + 1 := ⟨f1 - 1, by omega⟩
    obtain ⟨b, rfl⟩ : ∃ b, f2 = b + 1 := ⟨f2 - 1, by omega⟩
    rfl
  | succ n ih =>
    intro pool f1 f2 hn h1 h2
    obtain ⟨a, rfl⟩ : ∃ a, f1 = a + 1 := ⟨f1 - 1, by omega⟩
    obtain ⟨b, rfl⟩ : ∃ b, f2 = b + 1 := ⟨f2 - 1, by omega⟩
    cases pool with
    | nil => rfl
    | cons x xs =>
      rw [phase2, phase2]
      dsimp only [List.isEmpty]
      cases hrc : runClusters d t problem cust mu lam alpha_1 alpha_2
          init_criterium
          (packClusters cust problem.capacity (reorder (x :: xs))) with
      | none => rfl
      | some pr =>
        obtain ⟨routes, leftover⟩ := pr
        have hbound := (runClusters_leftover_lt d t problem cust mu lam
          alpha_1 alpha_2 init_criterium hinit _ routes leftover hrc).2
          (packAux_ne_nil cust problem.capacity (reorder (x :: xs)) [] [] 0)
        rw [packClusters, packAux_join cust problem.capacity
          (reorder (x :: xs)) [] [] 0] at hbound
        simp only [List.flatten_nil, List.nil_append] at hbound
        have hlen : (reorder (x :: xs)).length = (x :: xs).length :=
          (hre (x :: xs)).length_eq
        rw [hlen] at hbound
        simp only [List.length_cons] at hbound hn h1 h2
        have hrec := ih leftover a b (by omega) (by omega) (by omega)
        dsimp only
        rw [hrec]

lemma kmeansBuildRoutes_none (d t : Nat → Nat → α) (problem : Problem α)
    (cust : Nat → Customer α) (mu lam alpha_1 alpha_2 : α)
    (init_criterium : Nat) :
    ∀ (clusters : List (List Nat)), (∃ c ∈ clusters, c ≠ []) →
      kmeansBuildRoutes d t problem cust mu lam alpha_1 alpha_2
        init_criterium clusters = none
  | [], h => by
    obtain ⟨c, hc, -⟩ := h
    exact absurd hc (List.not_mem_nil c)
  | c :: cs, h => by
    rw [kmeansBuildRoutes]
    by_cases hc : c.isEmpty
    · rw [if_pos hc]
      apply kmeansBuildRoutes_none d t problem cust mu lam alpha_1 alpha_2
        init_criterium cs
      obtain ⟨c2, hc2, hne⟩ := h
      rcases List.mem_cons.mp hc2 with h2 | h2
      · subst h2
        exact absurd (List.isEmpty_iff.mp hc) hne
      · exact ⟨c2, h2, hne⟩
    · rw [if_neg hc]
      rfl

lemma kmeansLoop_none (clusterize : List Nat → List (List Nat))
    (d t : Nat → Nat → α) (problem : Problem α) (cust : Nat → Customer α)
    (mu lam alpha_1 alpha_2 : α) (init_criterium : Nat) (fuel : Nat)
    (pool : List Nat) (hf : 0 < fuel) (hp : pool ≠ [])
    (hcov : ∀ i ∈ pool, ∃ c ∈ clusterize pool, i ∈ c) :
    kmeansLoop clusterize d t problem cust mu lam alpha_1 alpha_2
      init_criterium fuel pool = none := by
  obtain ⟨f, rfl⟩ : ∃ f, fuel = f + 1 := ⟨fuel - 1, by omega⟩
  match pool, hp with
  | x :: xs, hp =>
    rw [kmeansLoop]
    have hex : ∃ c ∈ clusterize (x :: xs), c ≠ [] := by
      obtain ⟨c, hc, hxc⟩ := hcov x (List.mem_cons_self x xs)
      refine ⟨c, hc, fun hnil => ?_⟩
      rw [hnil] at hxc
      exact (List.not_mem_nil x) hxc
    rw [kmeansBuildRoutes_none d t problem cust mu lam alpha_1 alpha_2
      init_criterium _ hex]
    rfl

/-- Claim C7: the partitioning front-ends cannot loop forever on a
zero-progress round.  (a) Sweep: every phase-2 round on a non-empty pool
either fails — the loop then stops with the failure — or routes at least
one customer out of every packed cluster (the seed), so the value of the
phase-2 loop is already final with any fuel above `pool.length`: the loop
terminates within `pool.length` rounds on every input (with the two defined
seed rules and a pool-permuting `bissect`).  (b) Clustering: the outer loop
stops during its very first round, because its engine call fails (the name
`insertion_heuristic_sr` is undefined), surfacing a fatal condition instead
of repeating. -/
theorem partition_front_ends_terminate (reorder : List Nat → List Nat)
    (clusterize : List Nat → List (List Nat)) (d t : Nat → Nat → α)
    (problem : Problem α) (cust : Nat → Customer α)
    (mu lam alpha_1 alpha_2 : α) (init_criterium : Nat) (pool : List Nat)
    (f1 f2 : Nat) :
    ((∀ p : List Nat, (reorder p).Perm p) →
        (init_criterium = 0 ∨ init_criterium = 1) →
        pool.length < f1 → pool.length < f2 →
        phase2 reorder d t problem cust mu lam alpha_1 alpha_2
            init_criterium f1 pool =
          phase2 reorder d t problem cust mu lam alpha_1 alpha_2
            init_criterium f2 pool) ∧
      (0 < f1 → pool ≠ [] →
        (∀ i ∈ pool, ∃ c ∈ clusterize pool, i ∈ c) →
        kmeansLoop clusterize d t problem cust mu lam alpha_1 alpha_2
          init_criterium f1 pool = none) := by
  constructor
  · intro hre hinit h1 h2
    exact phase2_fuel_eq reorder d t problem cust mu lam alpha_1 alpha_2
      init_criterium hre hinit pool.length pool f1 f2 (le_refl _) h1 h2
  · intro hf hp hcov
    exact kmeansLoop_none clusterize d t problem cust mu lam alpha_1 alpha_2
      init_criterium f1 pool hf hp hcov

/-- Witness for C7: pool `[1]`, identity reorder, one-cluster clustering. -/
theorem partition_front_ends_terminate_witness :
    phase2 id tEx tEx probEx custEx 1 1 1 0 0 2 [1] =
        phase2 id tEx tEx probEx custEx 1 1 1 0 0 3 [1] ∧
      kmeansLoop (fun p => [p]) tEx tEx probEx custEx 1 1 1 0 0 2 [1] =
        none :=
  ⟨(partition_front_ends_terminate id (fun p => [p]) tEx tEx probEx custEx
        1 1 1 0 0 [1] 2 3).1 (fun p => List.Perm.refl p) (Or.inl rfl)
      (by decide) (by decide),
    (partition_front_ends_terminate id (fun p => [p]) tEx tEx probEx custEx
        1 1 1 0 0 [1] 2 3).2 (by decide) (by decide) (by decide)⟩

/-- Claim C10: the clustering front-end can never construct a route — the
engine it invokes is the name `insertion_heuristic_sr`, which no source
file defines, so on any non-empty pool (every pool member being assigned to
some cluster) the route-building loop of `kmeans_vrptw` fails before
building any route. -/
theorem kmeans_vrptw_builds_no_route (clusterize : List Nat → List (List Nat))
    (d t : Nat → Nat → α) (problem : Problem α) (cust : Nat → Customer α)
    (mu lam alpha_1 alpha_2 : α) (init_criterium : Nat) (fuel : Nat)
    (pool : List Nat) (hf : 0 < fuel) (hp : pool ≠ [])
    (hcov : ∀ i ∈ pool, ∃ c ∈ clusterize pool, i ∈ c) :
    kmeansLoop clusterize d t problem cust mu lam alpha_1 alpha_2
      init_criterium fuel pool = none :=
  kmeansLoop_none clusterize d t problem cust mu lam alpha_1 alpha_2
    init_criterium fuel pool hf hp hcov

/-- Witness for C10: pool `[2]`, one round of fuel. -/
theorem kmeans_vrptw_builds_no_route_witness :
    kmeansLoop (fun p => [p]) tEx tEx probEx custEx 1 1 1 0 1 1 [2] =
      none :=
  kmeans_vrptw_builds_no_route (fun p => [p]) tEx tEx probEx custEx
    1 1 1 0 1 1 [2] (by decide) (by decide) (by decide)
